import Mathlib

/-!
Verification of the chat-video bubble generator (conversation layout and
frame-windowing engine). The definitions below are shallow embeddings of the
JavaScript source: `src/server.js` (variant A, fixed canvas with a scrolling
vertical offset) and `src/unnamed/part_000` (variant B, per-frame canvas
cropped to content). Text measurement is abstracted as a function from
strings to a linearly ordered width type, exactly as the code treats
`ctx.measureText(...).width` as an opaque number.
-/

namespace ChatVideo

/-- Model of JavaScript `text.split(' ')`: split on every single space
character, keeping empty pieces between consecutive spaces. Auxiliary
recursion over the character list with an accumulator. -/
def splitSpAux : List Char → List Char → List String
  | [], acc => [String.mk acc.reverse]
  | c :: cs, acc =>
    if c = ' ' then String.mk acc.reverse :: splitSpAux cs []
    else splitSpAux cs (c :: acc)

/-- JavaScript `s.split(' ')`. -/
def splitSp (s : String) : List String := splitSpAux s.data []

/-- Join lines with one space between consecutive lines. -/
def joinSp : List String → String
  | [] => ""
  | [l] => l
  | l :: ls => l ++ " " ++ joinSp ls

/-- The non-space characters of a string, in order. -/
def charsNS (s : String) : List Char := s.data.filter (· ≠ ' ')

/-- The nonempty words of a word list. -/
def wordsNE (ls : List String) : List String := ls.filter (· ≠ "")

/-- Character-level fallback of `wrapText` (src/server.js lines 70-80 and
90-100): walk the characters of an over-long word, flushing the current
fragment whenever appending the next character would exceed `maxW`.
Returns the flushed fragments and the trailing fragment. -/
def splitChars {α : Type} [LinearOrder α] (m : String → α) (maxW : α) :
    List Char → String → (List String × String)
  | [], frag => ([], frag)
  | c :: cs, frag =>
    let t := frag.push c
    if maxW < m t then
      let r := splitChars m maxW cs (String.singleton c)
      (frag :: r.1, r.2)
    else splitChars m maxW cs t

/-- The word loop of `wrapText` (src/server.js lines 61-107): greedy
accumulation of whitespace-separated words into `cur`, flushing when the
tentative line would exceed `maxW`, with the character-level fallback for
single words that alone exceed `maxW`. -/
def wrapWords {α : Type} [LinearOrder α] (m : String → α) (maxW : α) :
    List String → String → List String
  | [], cur => if cur = "" then [] else [cur]
  | word :: rest, cur =>
    let test := if cur = "" then word else cur ++ " " ++ word
    if maxW < m test then
      if cur = "" then
        let r := splitChars m maxW word.data ""
        r.1 ++ (if r.2 = "" then [] else [r.2]) ++ wrapWords m maxW rest ""
      else
        if maxW < m word then
          let r := splitChars m maxW word.data ""
          cur :: r.1 ++ wrapWords m maxW rest r.2
        else
          cur :: wrapWords m maxW rest word
    else wrapWords m maxW rest test

/-- `wrapText(ctx, text, maxWidth)` from src/server.js lines 56-110, with the
measuring context abstracted as `m`. -/
def wrapText {α : Type} [LinearOrder α] (m : String → α) (maxW : α)
    (text : String) : List String :=
  wrapWords m maxW (splitSp text) ""

/-- Input message as consumed by `generateConversationFrames`
(src/server.js lines 139-141): `text` and `sender` may be absent, and the
code applies `msg.text || ''` and `msg.sender || "Sender"`. `none` and
`some ""` both model a falsy JavaScript value. -/
structure MsgIn where
  text : Option String
  sender : Option String
deriving Repr, DecidableEq

/-- `msg.sender || "Sender"` (src/server.js line 141). -/
def senderOf (msg : MsgIn) : String :=
  match msg.sender with
  | none => "Sender"
  | some s => if s = "" then "Sender" else s

/-- ASCII lowering of one character, modelling what JavaScript
`toLowerCase()` does on the ASCII range. -/
def lowerChar (c : Char) : Char :=
  if 'A' ≤ c ∧ c ≤ 'Z' then Char.ofNat (c.toNat + 32) else c

/-- Model of JavaScript `s.toLowerCase()` (ASCII range). -/
def lowerStr (s : String) : String := String.mk (s.data.map lowerChar)

/-- A JavaScript whitespace character as far as `trim()` is concerned
(restricted to the common ones). -/
def isSpaceChar (c : Char) : Bool := c = ' ' ∨ c = '\t' ∨ c = '\n' ∨ c = '\r'

/-- Model of JavaScript `s.trim()`: drop whitespace from both ends. -/
def trimStr (s : String) : String :=
  String.mk (((s.data.dropWhile isSpaceChar).reverse.dropWhile isSpaceChar).reverse)

/-- `String(msg.text || '').trim()` (src/server.js line 140). -/
def textOf (msg : MsgIn) : String := trimStr (msg.text.getD "")

/-- Style configuration of `generateConversationFrames`
(src/server.js lines 119-131). -/
structure Style where
  width : ℚ
  height : ℚ
  paddingTop : ℚ
  paddingBottom : ℚ
  marginSides : ℚ
  bubblePaddingX : ℚ
  bubblePaddingY : ℚ
  gapBetween : ℚ
  fontSize : ℚ
  maxBubbleWidth : ℚ
deriving Repr, DecidableEq

/-- `Math.max(fontSize * 1.12, fontSize + 6)` (src/server.js line 144). -/
def lineHeightOf (fontSize : ℚ) : ℚ := max (fontSize * (112 / 100)) (fontSize + 6)

/-- A laid-out bubble (src/server.js lines 149-157). -/
structure Bubble where
  index : ℕ
  text : String
  sender : String
  lines : List String
  bubbleW : ℚ
  bubbleH : ℚ
  lineHeight : ℚ
deriving Repr, DecidableEq

/-- One step of the pre-calculation `messages.map((msg, idx) => ...)`
(src/server.js lines 139-158): wrap the trimmed text, take the widest line
(`Math.max(...widths, 0)`), cap the width at `maxBubbleWidth`, and size the
height from the line count. -/
def mkBubble (m : String → ℚ) (st : Style) (idx : ℕ) (msg : MsgIn) : Bubble :=
  let text := textOf msg
  let sender := senderOf msg
  let lines := wrapText m (st.maxBubbleWidth - st.bubblePaddingX * 2) text
  let lineHeight := lineHeightOf st.fontSize
  let textWidth := (lines.map m).foldr max 0
  let bubbleW := min st.maxBubbleWidth ((⌈textWidth⌉ : ℚ) + st.bubblePaddingX * 2)
  let bubbleH := ((⌈(lines.length : ℚ) * lineHeight + st.bubblePaddingY * 2⌉ : ℤ) : ℚ)
  ⟨idx, text, sender, lines, bubbleW, bubbleH, lineHeight⟩

/-- The whole bubble pre-calculation over the message list. -/
def bubblesOf (m : String → ℚ) (st : Style) (msgs : List MsgIn) : List Bubble :=
  msgs.mapIdx (fun idx msg => mkBubble m st idx msg)

/-- Vertical stacking (src/server.js lines 162-167): each bubble at the
running `cy`, which advances by `bubbleH + gapBetween`. -/
def stackPositions (st : Style) : List Bubble → ℚ → List ℚ
  | [], _ => []
  | b :: bs, cy => cy :: stackPositions st bs (cy + b.bubbleH + st.gapBetween)

/-- Absolute Y positions of all bubbles, starting at `paddingTop`. -/
def positionsOf (m : String → ℚ) (st : Style) (msgs : List MsgIn) : List ℚ :=
  stackPositions st (bubblesOf m st msgs) st.paddingTop

/-- `usedHeightUpToState` (src/server.js line 198): bottom edge of the
bubble at `state` plus the bottom padding. -/
def usedHeightUpTo (m : String → ℚ) (st : Style) (msgs : List MsgIn) (s : ℕ) : ℚ :=
  (positionsOf m st msgs).getD s 0
    + ((bubblesOf m st msgs).map Bubble.bubbleH).getD s 0
    + st.paddingBottom

/-- The vertical offset computation (src/server.js lines 199-208), with the
source's (dead) non-negativity clamp reproduced. -/
def yOffsetOf (used height : ℚ) : ℚ :=
  if height < used then
    let y := used - height
    if y < 0 then 0 else y
  else 0

/-- Horizontal placement (src/server.js lines 218-219): sender-side bubbles
right-aligned, everything else left-aligned. -/
def bubbleXOf (st : Style) (sender : String) (bw : ℚ) : ℚ :=
  if lowerStr sender = "sender" then st.width - st.marginSides - bw
  else st.marginSides

/-- A bubble actually drawn into a frame: its index and on-canvas rectangle. -/
structure Drawn where
  index : ℕ
  x : ℚ
  y : ℚ
  w : ℚ
  h : ℚ
deriving Repr, DecidableEq

/-- The drawing loop of one frame (src/server.js lines 211-245): bubbles
`0..state`, shifted up by the frame's offset, with the vertical culling test
of line 215. -/
def drawnAt (m : String → ℚ) (st : Style) (msgs : List MsgIn) (state : ℕ) : List Drawn :=
  let bubbles := bubblesOf m st msgs
  let positions := positionsOf m st msgs
  let yOff := yOffsetOf (usedHeightUpTo m st msgs state) st.height
  (List.range (state + 1)).filterMap (fun i =>
    match bubbles.get? i with
    | none => none
    | some b =>
      let bubbleY := positions.getD i 0 - yOff
      if bubbleY + b.bubbleH < 0 ∨ st.height < bubbleY then none
      else some ⟨i, bubbleXOf st b.sender b.bubbleW, bubbleY, b.bubbleW, b.bubbleH⟩)

/-- One output frame: its state index, the vertical offset applied, and the
bubbles drawn. -/
structure Frame where
  state : ℕ
  yOffset : ℚ
  drawn : List Drawn
deriving Repr, DecidableEq

/-- `generateConversationFrames` (src/server.js lines 118-276), restricted to
its layout content: one frame per state `0..n-1`, in order. -/
def generateConversationFrames (m : String → ℚ) (st : Style) (msgs : List MsgIn) :
    List Frame :=
  (List.range (bubblesOf m st msgs).length).map (fun state =>
    ⟨state, yOffsetOf (usedHeightUpTo m st msgs state) st.height,
      drawnAt m st msgs state⟩)

/-- The `/generate` handler's input validation (src/server.js lines 296-298):
a missing or non-array `messages` becomes `[]`, and an empty list is rejected
with a 400 error before any layout work. -/
def handleGenerate (m : String → ℚ) (st : Style) (body : Option (List MsgIn)) :
    Except String (List Frame) :=
  let messages := body.getD []
  if messages.length = 0 then Except.error "No messages provided"
  else Except.ok (generateConversationFrames m st messages)

/-- Default style of src/server.js lines 119-131 for a given width, height
and font size (the only fields the `/generate` handler overrides). -/
def defaultStyleA (width height fontSize : ℚ) : Style :=
  ⟨width, height, 140, 140, 36, 28, 20, 18, fontSize, ((⌊width * (75 / 100)⌋ : ℤ) : ℚ)⟩

/-- Default style of src/unnamed/part_000 lines 98-110. -/
def defaultStyleB (width height fontSize : ℚ) : Style :=
  ⟨width, height, 140, 140, 36, 32, 24, 22, fontSize, ((⌊width * (75 / 100)⌋ : ℤ) : ℚ)⟩

namespace VariantB

/-- Bottom edge of the bubble at `state` in the cropping variant
(src/unnamed/part_000 line 139: `positions[state] + bubbles[state].bubbleH`);
the variant draws every bubble at its absolute position with no offset
(line 158). -/
def lastBubbleBottom (m : String → ℚ) (st : Style) (msgs : List MsgIn) (state : ℕ) : ℚ :=
  (positionsOf m st msgs).getD state 0
    + ((bubblesOf m st msgs).map Bubble.bubbleH).getD state 0

/-- Per-frame canvas height of the cropping variant
(src/unnamed/part_000 lines 139-140): `Math.min(cropHeight, height)` with
`cropHeight = positions[state] + bubbles[state].bubbleH + 20`. -/
def frameCanvasHeight (m : String → ℚ) (st : Style) (msgs : List MsgIn) (state : ℕ) : ℚ :=
  min (lastBubbleBottom m st msgs state + 20) st.height

end VariantB

/-- A measurer assigning each string ten units per character, used for
concrete evaluations. -/
def charWidth10 : String → ℚ := fun s => (s.length : ℚ) * 10

/-- The radius actually used by `roundRect` (src/server.js lines 43-45 and
src/unnamed/part_000 lines 37-39): the requested radius clamped down to
`Math.min(w/2, h/2)`. -/
def effectiveRadius (w h r : ℚ) : ℚ :=
  let mn := min (w / 2) (h / 2)
  if mn < r then mn else r

namespace TypingModel

/-- Modelled from the spec: the message shape consumed by the
TypingVisibilityResolver (spec section 4.3), which has no implementation under
src/ — only its contract is specified. A message carries its sender and
whether it is a typing placeholder. -/
structure TMsg where
  sender : String
  typing : Bool
deriving Repr, DecidableEq

/-- Scan a message suffix for the first real (non-typing) message of sender
`sdr`, reporting its absolute index (`k` is the absolute index of the head
of the suffix). -/
def findNextRealAux (sdr : String) : List TMsg → ℕ → Option ℕ
  | [], _ => none
  | msg :: rest, k =>
    if msg.typing = false ∧ msg.sender = sdr then some k
    else findNextRealAux sdr rest (k + 1)

/-- Modelled from the spec: the forward search of the
TypingVisibilityResolver (spec section 4.3), missing from src/ — "search
forward from `j+1` for the nearest non-typing bubble with the same sender".
Returns the index of the nearest real (non-typing) message from `sdr` at an
index `≥ k`, or `none`. -/
def findNextReal (msgs : List TMsg) (sdr : String) (k : ℕ) : Option ℕ :=
  findNextRealAux sdr (msgs.drop k) k

/-- Modelled from the spec: visibility of the bubble at index `j` in the
frame for `state` per the TypingVisibilityResolver (spec section 4.3),
missing from src/. A non-typing bubble is always visible; a typing bubble is
visible until the nearest following real message of the same sender has
arrived (index `≤ state`). -/
def typingVisibleAt (msgs : List TMsg) (state j : ℕ) : Bool :=
  match msgs.get? j with
  | none => false
  | some msg =>
    if msg.typing = false then true
    else
      match findNextReal msgs msg.sender (j + 1) with
      | none => true
      | some k => decide (state < k)

end TypingModel

namespace StatusModel

/-- Modelled from the spec: the resolved delivery status (spec section 4.5);
the StatusResolver has no implementation under src/. -/
inductive Status where
  | sent
  | delivered
  | seen
deriving Repr, DecidableEq

/-- Modelled from the spec: the heterogeneous status fields a message may
carry (spec sections 4.5 and 9), missing from src/: an explicit
status/state/tick string, boolean `seen`/`delivered` flags,
timestamp-presence fields `read_at`/`delivered_at`, and the message's side. -/
structure SMsg where
  status : Option String
  state : Option String
  tick : Option String
  seen : Option Bool
  delivered : Option Bool
  read_at : Option String
  delivered_at : Option String
  isSender : Bool
deriving Repr, DecidableEq

/-- Modelled from the spec: parsing of an explicit status string (spec
section 4.5), missing from src/ — matched case-insensitively, with "read"
normalized to "seen". -/
def parseStatus (s : String) : Option Status :=
  let l := lowerStr s
  if l = "seen" ∨ l = "read" then some Status.seen
  else if l = "delivered" then some Status.delivered
  else if l = "sent" then some Status.sent
  else none

/-- Modelled from the spec: the StatusResolver precedence (spec section 4.5),
missing from src/ — explicit status/state/tick field wins over boolean flags
(`seen` then `delivered`), which win over timestamp presence (`read_at` then
`delivered_at`); otherwise no signal. -/
def resolve (msg : SMsg) : Option Status :=
  match (msg.status <|> msg.state <|> msg.tick).bind parseStatus with
  | some st => some st
  | none =>
    if msg.seen = some true then some Status.seen
    else if msg.delivered = some true then some Status.delivered
    else if msg.read_at.isSome then some Status.seen
    else if msg.delivered_at.isSome then some Status.delivered
    else none

/-- Modelled from the spec: the renderer's tick display (spec section 4.5),
missing from src/ — an unresolved sender-side message defaults to Delivered
ticks, and a receiver-side message never shows ticks. -/
def displayedTicks (msg : SMsg) : Option Status :=
  if msg.isSender then some ((resolve msg).getD Status.delivered) else none

end StatusModel

end ChatVideo

namespace ChatVideo

theorem splitSpAux_append (l1 l2 acc : List Char) :
    splitSpAux (l1 ++ ' ' :: l2) acc = splitSpAux l1 acc ++ splitSpAux l2 [] := by
  induction l1 generalizing acc with
  | nil => simp [splitSpAux]
  | cons c l1 ih =>
    by_cases hc : c = ' '
    · subst hc; simp [splitSpAux, ih]
    · simp [splitSpAux, hc, ih]

theorem data_append_space (a b : String) :
    (a ++ " " ++ b).data = a.data ++ ' ' :: b.data := by
  rw [String.data_append, String.data_append, List.append_assoc]
  rfl

theorem splitSp_append (a b : String) :
    splitSp (a ++ " " ++ b) = splitSp a ++ splitSp b := by
  unfold splitSp
  rw [data_append_space, splitSpAux_append]

theorem joinSp_cons_cons (l l' : String) (ls : List String) :
    joinSp (l :: l' :: ls) = l ++ " " ++ joinSp (l' :: ls) := rfl

theorem splitSp_joinSp : ∀ ls : List String, ls ≠ [] →
    splitSp (joinSp ls) = (ls.map splitSp).flatten
  | [], h => absurd rfl h
  | [l], _ => by simp [joinSp]
  | l :: l' :: ls, _ => by
    rw [joinSp_cons_cons, splitSp_append, splitSp_joinSp (l' :: ls) (by simp)]
    simp

theorem charsNS_empty : charsNS "" = [] := rfl

theorem charsNS_space : charsNS " " = [] := by decide

theorem charsNS_append (a b : String) : charsNS (a ++ b) = charsNS a ++ charsNS b := by
  simp [charsNS, String.data_append, List.filter_append]

theorem charsNS_joinSp : ∀ ls : List String,
    charsNS (joinSp ls) = (ls.map charsNS).flatten
  | [] => by simp [joinSp, charsNS_empty]
  | [l] => by simp [joinSp]
  | l :: l' :: ls => by
    rw [joinSp_cons_cons, charsNS_append, charsNS_append, charsNS_joinSp (l' :: ls),
      charsNS_space]
    simp

theorem charsNS_mk (l : List Char) : charsNS (String.mk l) = l.filter (· ≠ ' ') := rfl

theorem charsNS_splitSpAux : ∀ (l acc : List Char),
    ((splitSpAux l acc).map charsNS).flatten
      = acc.reverse.filter (· ≠ ' ') ++ l.filter (· ≠ ' ')
  | [], acc => by simp [splitSpAux, charsNS_mk]
  | c :: l, acc => by
    by_cases hc : c = ' '
    · subst hc
      simp [splitSpAux, charsNS_mk, charsNS_splitSpAux l []]
    · simp [splitSpAux, hc, charsNS_splitSpAux l (c :: acc), List.filter_cons, hc]

theorem charsNS_splitSp (s : String) :
    ((splitSp s).map charsNS).flatten = charsNS s := by
  rw [splitSp, charsNS_splitSpAux]
  rfl

theorem charsNS_push (s : String) (c : Char) :
    charsNS (s.push c) = charsNS s ++ List.filter (fun x => x ≠ ' ') [c] := by
  simp [charsNS, String.push, List.filter_append]

theorem charsNS_singleton (c : Char) :
    charsNS (String.singleton c) = List.filter (fun x => x ≠ ' ') [c] := rfl

theorem splitChars_chars {α : Type} [LinearOrder α] (m : String → α) (w : α) :
    ∀ (cs : List Char) (frag : String),
    ((splitChars m w cs frag).1.map charsNS).flatten ++ charsNS (splitChars m w cs frag).2
      = charsNS frag ++ cs.filter (· ≠ ' ')
  | [], frag => by simp [splitChars]
  | c :: cs, frag => by
    by_cases h : w < m (frag.push c)
    · have ih := splitChars_chars m w cs (String.singleton c)
      simp only [splitChars, if_pos h]
      simp only [List.map_cons, List.flatten_cons, List.append_assoc, ih,
        charsNS_singleton, List.filter_cons]
      by_cases hc : c = ' ' <;> simp [hc, charsNS_push]
    · have ih := splitChars_chars m w cs (frag.push c)
      simp only [splitChars, if_neg h, ih, charsNS_push, List.filter_cons]
      by_cases hc : c = ' ' <;> simp [hc]

theorem wrapWords_chars {α : Type} [LinearOrder α] (m : String → α) (w : α) :
    ∀ (words : List String) (cur : String),
    ((wrapWords m w words cur).map charsNS).flatten
      = charsNS cur ++ (words.map charsNS).flatten
  | [], cur => by
    by_cases h : cur = "" <;> simp [wrapWords, h, charsNS_empty]
  | word :: rest, cur => by
    have hsc : ((splitChars m w word.data "").1.map charsNS).flatten
        ++ charsNS (splitChars m w word.data "").2 = charsNS word := by
      simpa [charsNS_empty, charsNS] using splitChars_chars m w word.data ""
    by_cases hcur : cur = ""
    · subst hcur
      by_cases hov : w < m word
      · have ih := wrapWords_chars m w rest ""
        by_cases hfrag : (splitChars m w word.data "").2 = ""
        · have hw : wrapWords m w (word :: rest) ""
              = (splitChars m w word.data "").1 ++ wrapWords m w rest "" := by
            simp [wrapWords, hov, hfrag]
          rw [hfrag, charsNS_empty, List.append_nil] at hsc
          simp [hw, ih, charsNS_empty, hsc]
        · have hw : wrapWords m w (word :: rest) ""
              = (splitChars m w word.data "").1 ++ [(splitChars m w word.data "").2]
                ++ wrapWords m w rest "" := by
            simp [wrapWords, hov, hfrag]
          rw [hw]
          simp only [List.map_append, List.flatten_append, List.map_cons,
            List.flatten_cons, List.map_nil, List.flatten_nil, List.append_nil, ih,
            charsNS_empty, List.nil_append]
          rw [hsc]
      · have ih := wrapWords_chars m w rest word
        have hw : wrapWords m w (word :: rest) "" = wrapWords m w rest word := by
          simp [wrapWords, hov]
        simp [hw, ih, charsNS_empty]
    · have htest : charsNS (cur ++ " " ++ word) = charsNS cur ++ charsNS word := by
        rw [charsNS_append, charsNS_append, charsNS_space, List.append_nil]
      by_cases hov : w < m (cur ++ " " ++ word)
      · by_cases hw2 : w < m word
        · have ih := wrapWords_chars m w rest (splitChars m w word.data "").2
          have hw : wrapWords m w (word :: rest) cur
              = cur :: (splitChars m w word.data "").1
                ++ wrapWords m w rest (splitChars m w word.data "").2 := by
            simp [wrapWords, hcur, hov, hw2]
          rw [hw]
          simp only [List.map_cons, List.flatten_cons, List.map_append,
            List.flatten_append, ih]
          have hsc2 := congrArg (fun l => l ++ (List.map charsNS rest).flatten) hsc
          simp only [List.append_assoc] at hsc2 ⊢
          rw [hsc2]
        · have ih := wrapWords_chars m w rest word
          have hw : wrapWords m w (word :: rest) cur = cur :: wrapWords m w rest word := by
            simp [wrapWords, hcur, hov, hw2]
          simp [hw, ih]
      · have ih := wrapWords_chars m w rest (cur ++ " " ++ word)
        have hw : wrapWords m w (word :: rest) cur
            = wrapWords m w rest (cur ++ " " ++ word) := by
          simp [wrapWords, hcur, hov]
        simp [hw, ih, htest]

theorem splitSp_empty : splitSp "" = [""] := rfl

theorem wordsNE_append (a b : List String) :
    wordsNE (a ++ b) = wordsNE a ++ wordsNE b := by
  simp [wordsNE, List.filter_append]

theorem splitSpAux_no_space : ∀ (l acc : List Char), (∀ c ∈ l, c ≠ ' ') →
    splitSpAux l acc = [String.mk (acc.reverse ++ l)]
  | [], acc, _ => by simp [splitSpAux]
  | c :: l, acc, h => by
    have hc : c ≠ ' ' := h c (by simp)
    rw [splitSpAux, if_neg hc,
      splitSpAux_no_space l (c :: acc) (fun x hx => h x (by simp [hx]))]
    simp

theorem splitSp_no_space (s : String) (h : ∀ c ∈ s.data, c ≠ ' ') :
    splitSp s = [s] := by
  rw [splitSp, splitSpAux_no_space s.data [] h]
  cases s
  simp

theorem mem_splitSpAux_no_space : ∀ (l acc : List Char), (∀ c ∈ acc, c ≠ ' ') →
    ∀ x ∈ splitSpAux l acc, ∀ c ∈ x.data, c ≠ ' '
  | [], acc, hacc => by
    simp only [splitSpAux, List.mem_singleton]
    intro x hx
    subst hx
    intro c hc
    exact hacc c (List.mem_reverse.mp hc)
  | c :: l, acc, hacc => by
    by_cases hc : c = ' '
    · subst hc
      rw [splitSpAux, if_pos rfl]
      intro x hx
      rcases List.mem_cons.mp hx with h1 | h2
      · subst h1
        intro d hd
        exact hacc d (List.mem_reverse.mp hd)
      · exact mem_splitSpAux_no_space l [] (by simp) x h2
    · rw [splitSpAux, if_neg hc]
      refine mem_splitSpAux_no_space l (c :: acc) ?_
      intro d hd
      rcases List.mem_cons.mp hd with h1 | h2
      · subst h1; exact hc
      · exact hacc d h2

theorem splitSp_mem_no_space (t x : String) (hx : x ∈ splitSp t) :
    ∀ c ∈ x.data, c ≠ ' ' :=
  mem_splitSpAux_no_space t.data [] (by simp) x hx

theorem wrapWords_words {α : Type} [LinearOrder α] (m : String → α) (w : α) :
    ∀ (words : List String) (cur : String),
      (∀ x ∈ words, m x ≤ w) → (∀ x ∈ words, ∀ c ∈ x.data, c ≠ ' ') →
      wordsNE (((wrapWords m w words cur).map splitSp).flatten)
        = wordsNE (splitSp cur) ++ wordsNE words
  | [], cur, _, _ => by
    by_cases h : cur = "" <;> simp [wrapWords, h, wordsNE, splitSp_empty]
  | word :: rest, cur, hfit, hsp => by
    have hfit' : ∀ x ∈ rest, m x ≤ w := fun x hx => hfit x (List.mem_cons_of_mem _ hx)
    have hsp' : ∀ x ∈ rest, ∀ c ∈ x.data, c ≠ ' ' :=
      fun x hx => hsp x (List.mem_cons_of_mem _ hx)
    have hwordfit : m word ≤ w := hfit word (List.mem_cons_self _ _)
    have hsplitword : splitSp word = [word] :=
      splitSp_no_space word (hsp word (List.mem_cons_self _ _))
    by_cases hcur : cur = ""
    · subst hcur
      by_cases hov : w < m word
      · exact absurd hov (not_lt.mpr hwordfit)
      · have hw : wrapWords m w (word :: rest) "" = wrapWords m w rest word := by
          simp [wrapWords, hov]
        rw [hw, wrapWords_words m w rest word hfit' hsp', hsplitword]
        by_cases hword : word = "" <;>
          simp [wordsNE, List.filter_cons, hword, splitSp_empty]
    · by_cases hov : w < m (cur ++ " " ++ word)
      · by_cases hw2 : w < m word
        · exact absurd hw2 (not_lt.mpr hwordfit)
        · have hw : wrapWords m w (word :: rest) cur
              = cur :: wrapWords m w rest word := by
            simp [wrapWords, hcur, hov, hw2]
          rw [hw]
          simp only [List.map_cons, List.flatten_cons]
          rw [wordsNE_append, wrapWords_words m w rest word hfit' hsp', hsplitword]
          by_cases hword : word = "" <;>
            simp [wordsNE, List.filter_cons, hword]
      · have hw : wrapWords m w (word :: rest) cur
            = wrapWords m w rest (cur ++ " " ++ word) := by
          simp [wrapWords, hcur, hov]
        rw [hw, wrapWords_words m w rest (cur ++ " " ++ word) hfit' hsp',
          splitSp_append, hsplitword, wordsNE_append]
        by_cases hword : word = "" <;>
          simp [wordsNE, List.filter_cons, hword]

/-- C3: for every text `t` and width `w` (and any measurer), the lines
returned by `wrapText`, joined with single spaces, preserve the text's
non-space characters in order (this is the sense in which forced character
splits are "ignored"); and whenever no single word measures wider than `w`
(so no forced character split occurs), the joined lines contain exactly the
whitespace-separated words of `t`, in order, none dropped, none
duplicated. -/
theorem wrap_preserves_words {α : Type} [LinearOrder α] (m : String → α) (w : α)
    (t : String) :
    charsNS (joinSp (wrapText m w t)) = charsNS t ∧
    ((∀ x ∈ splitSp t, m x ≤ w) →
      wordsNE (splitSp (joinSp (wrapText m w t))) = wordsNE (splitSp t)) := by
  constructor
  · rw [charsNS_joinSp, wrapText, wrapWords_chars, charsNS_empty, List.nil_append,
      charsNS_splitSp]
  · intro hfit
    have key := wrapWords_words m w (splitSp t) "" hfit
      (fun x hx => splitSp_mem_no_space t x hx)
    rw [splitSp_empty] at key
    have hemp : wordsNE [""] = ([] : List String) := by simp [wordsNE]
    rw [hemp, List.nil_append] at key
    have hkey : wordsNE (((wrapText m w t).map splitSp).flatten)
        = wordsNE (splitSp t) := key
    cases heq : wrapText m w t with
    | nil =>
      rw [heq] at hkey
      simpa [joinSp, splitSp_empty, wordsNE] using hkey
    | cons l ls =>
      rw [heq] at hkey
      rw [splitSp_joinSp (l :: ls) (by simp)]
      exact hkey

/-- Witness for the C3 theorem at a concrete input. -/
theorem wrap_preserves_words_witness :
    (∀ x ∈ splitSp "ab cd", (fun s : String => s.length) x ≤ 5) ∧
    wordsNE (splitSp (joinSp (wrapText (fun s : String => s.length) 5 "ab cd")))
      = wordsNE (splitSp "ab cd") :=
  ⟨by decide, (wrap_preserves_words (fun s : String => s.length) 5 "ab cd").2 (by decide)⟩

theorem singleton_length (c : Char) : (String.singleton c).length = 1 := rfl

theorem splitChars_narrow {α : Type} [LinearOrder α] (m : String → α) (w : α) :
    ∀ (cs : List Char) (frag : String), m frag ≤ w ∨ frag.length ≤ 1 →
      (∀ l ∈ (splitChars m w cs frag).1, m l ≤ w ∨ l.length ≤ 1)
      ∧ (m (splitChars m w cs frag).2 ≤ w ∨ (splitChars m w cs frag).2.length ≤ 1)
  | [], frag, hf => ⟨by simp [splitChars], by simpa [splitChars] using hf⟩
  | c :: cs, frag, hf => by
    by_cases h : w < m (frag.push c)
    · have ih := splitChars_narrow m w cs (String.singleton c)
        (Or.inr (by simp [singleton_length]))
      have hw : splitChars m w (c :: cs) frag
          = (frag :: (splitChars m w cs (String.singleton c)).1,
             (splitChars m w cs (String.singleton c)).2) := by
        simp [splitChars, h]
      rw [hw]
      refine ⟨?_, ih.2⟩
      intro l hl
      rcases List.mem_cons.mp hl with h1 | h2
      · subst h1; exact hf
      · exact ih.1 l h2
    · have ih := splitChars_narrow m w cs (frag.push c) (Or.inl (not_lt.mp h))
      have hw : splitChars m w (c :: cs) frag = splitChars m w cs (frag.push c) := by
        simp [splitChars, h]
      rw [hw]
      exact ih

theorem wrapWords_narrow {α : Type} [LinearOrder α] (m : String → α) (w : α) :
    ∀ (words : List String) (cur : String), m cur ≤ w ∨ cur.length ≤ 1 →
      ∀ l ∈ wrapWords m w words cur, m l ≤ w ∨ l.length ≤ 1
  | [], cur, hc => by
    by_cases h : cur = ""
    · simp [wrapWords, h]
    · intro l hl
      simp only [wrapWords, if_neg h, List.mem_singleton] at hl
      subst hl; exact hc
  | word :: rest, cur, hc => by
    by_cases hcur : cur = ""
    · subst hcur
      by_cases hov : w < m word
      · have hsc := splitChars_narrow m w word.data "" (Or.inr (by decide))
        have ihr := wrapWords_narrow m w rest "" (Or.inr (by decide))
        by_cases hfrag : (splitChars m w word.data "").2 = ""
        · have hw : wrapWords m w (word :: rest) ""
              = (splitChars m w word.data "").1 ++ wrapWords m w rest "" := by
            simp [wrapWords, hov, hfrag]
          rw [hw]; intro l hl
          rcases List.mem_append.mp hl with h1 | h2
          · exact hsc.1 l h1
          · exact ihr l h2
        · have hw : wrapWords m w (word :: rest) ""
              = (splitChars m w word.data "").1 ++ [(splitChars m w word.data "").2]
                ++ wrapWords m w rest "" := by
            simp [wrapWords, hov, hfrag]
          rw [hw]; intro l hl
          rcases List.mem_append.mp hl with h12 | h3
          · rcases List.mem_append.mp h12 with h1 | h2
            · exact hsc.1 l h1
            · rw [List.mem_singleton] at h2; subst h2; exact hsc.2
          · exact ihr l h3
      · have hw : wrapWords m w (word :: rest) "" = wrapWords m w rest word := by
          simp [wrapWords, hov]
        rw [hw]
        exact wrapWords_narrow m w rest word (Or.inl (not_lt.mp hov))
    · by_cases hov : w < m (cur ++ " " ++ word)
      · by_cases hw2 : w < m word
        · have hsc := splitChars_narrow m w word.data "" (Or.inr (by decide))
          have ihr := wrapWords_narrow m w rest (splitChars m w word.data "").2 hsc.2
          have hw : wrapWords m w (word :: rest) cur
              = cur :: (splitChars m w word.data "").1
                ++ wrapWords m w rest (splitChars m w word.data "").2 := by
            simp [wrapWords, hcur, hov, hw2]
          rw [hw]; intro l hl
          rcases List.mem_cons.mp hl with h1 | h2
          · subst h1; exact hc
          · rcases List.mem_append.mp h2 with h3 | h4
            · exact hsc.1 l h3
            · exact ihr l h4
        · have hw : wrapWords m w (word :: rest) cur
              = cur :: wrapWords m w rest word := by
            simp [wrapWords, hcur, hov, hw2]
          rw [hw]; intro l hl
          rcases List.mem_cons.mp hl with h1 | h2
          · subst h1; exact hc
          · exact wrapWords_narrow m w rest word (Or.inl (not_lt.mp hw2)) l h2
      · have hw : wrapWords m w (word :: rest) cur
            = wrapWords m w rest (cur ++ " " ++ word) := by
          simp [wrapWords, hcur, hov]
        rw [hw]
        exact wrapWords_narrow m w rest (cur ++ " " ++ word) (Or.inl (not_lt.mp hov))

/-- C4 (amended): every line produced by `wrapText` either measures at most
`w`, or has at most one character — the latter only arises from the forced
character split, whose flushed fragment can be empty or a lone character
wider than `w` (a lone character is never split further). -/
theorem wrap_line_width_bound {α : Type} [LinearOrder α] (m : String → α) (w : α)
    (t : String) : ∀ l ∈ wrapText m w t, m l ≤ w ∨ l.length ≤ 1 :=
  wrapWords_narrow m w (splitSp t) "" (Or.inr (by decide))

/-- Witness for the C4 amended theorem at a concrete input. -/
theorem wrap_line_width_bound_witness :
    ("hello" ∈ wrapText (fun s : String => s.length) 10 "hello") ∧
    ((fun s : String => s.length) "hello" ≤ 10 ∨ ("hello" : String).length ≤ 1) :=
  ⟨by decide,
    wrap_line_width_bound (fun s : String => s.length) 10 "hello" "hello" (by decide)⟩

/-- C4 counterexample: with a measurer under which even a single character
exceeds the width budget (each character measures 1, width 0), force-splitting
"ab" emits the fragments "" and "a" and the trailing fragment "b", and the
emitted fragment "a" measures 1 > 0 — contradicting the claim that every
emitted fragment's measured width is at most `w`. -/
theorem wrap_fragment_overflow_cex :
    wrapText (fun s : String => s.length) 0 "ab" = ["", "a", "b"] ∧
    ¬ (∀ l ∈ wrapText (fun s : String => s.length) 0 "ab",
        (fun s : String => s.length) l ≤ 0) := by
  decide

/-- C9: the rounded-rectangle primitive draws with an effective radius of at
most `min(w, h)/2`: the requested radius is clamped down to
`min(w/2, h/2)` whenever it exceeds that bound, so rounded corners never
self-intersect on very small bubbles. -/
theorem roundRect_radius_clamped (w h r : ℚ) :
    effectiveRadius w h r ≤ min w h / 2 ∧
    (min w h / 2 < r → effectiveRadius w h r = min (w / 2) (h / 2)) := by
  have hmn : min (w / 2) (h / 2) = min w h / 2 := by
    rcases le_total w h with h' | h'
    · rw [min_eq_left h', min_eq_left (by linarith)]
    · rw [min_eq_right h', min_eq_right (by linarith)]
  simp only [effectiveRadius]
  split_ifs with hlt
  · exact ⟨le_of_eq hmn, fun _ => rfl⟩
  · constructor
    · rw [← hmn]; exact not_lt.mp hlt
    · intro hc
      rw [← hmn] at hc
      exact absurd hc hlt

/-- Witness for the C9 theorem at a concrete input. -/
theorem roundRect_radius_clamped_witness :
    effectiveRadius 4 6 10 ≤ min 4 6 / 2 ∧
    effectiveRadius 4 6 10 = min (4 / 2) (6 / 2) :=
  ⟨(roundRect_radius_clamped 4 6 10).1,
   (roundRect_radius_clamped 4 6 10).2 (by norm_num [min_def])⟩

/-- C2: with `usedHeight` the last visible bubble's bottom edge plus the
bottom margin (src/server.js line 198), the computed offset is exactly 0
when the content fits, is exactly `usedHeight - canvasHeight` otherwise (so
`usedHeight - offset = canvasHeight`), and is never negative. -/
theorem viewport_offset_exact (m : String → ℚ) (st : Style) (msgs : List MsgIn)
    (s : ℕ) (hs : s < msgs.length) :
    (usedHeightUpTo m st msgs s ≤ st.height →
      yOffsetOf (usedHeightUpTo m st msgs s) st.height = 0) ∧
    (st.height < usedHeightUpTo m st msgs s →
      yOffsetOf (usedHeightUpTo m st msgs s) st.height
        = usedHeightUpTo m st msgs s - st.height ∧
      usedHeightUpTo m st msgs s
        - yOffsetOf (usedHeightUpTo m st msgs s) st.height = st.height) ∧
    0 ≤ yOffsetOf (usedHeightUpTo m st msgs s) st.height := by
  simp only [yOffsetOf]
  split_ifs with h1 h2
  · exact absurd h2 (by linarith)
  · refine ⟨fun hle => absurd h1 (not_lt.mpr hle), fun _ => ⟨rfl, by ring⟩, by linarith⟩
  · exact ⟨fun _ => rfl, fun hlt => absurd hlt h1, le_refl 0⟩

/-- Witness for the C2 theorem at a concrete input. -/
theorem viewport_offset_exact_witness :
    0 ≤ yOffsetOf
        (usedHeightUpTo charWidth10 (defaultStyleA 1080 1920 48) [⟨some "hi", none⟩] 0)
        (defaultStyleA 1080 1920 48).height :=
  (viewport_offset_exact charWidth10 (defaultStyleA 1080 1920 48) [⟨some "hi", none⟩] 0
    (by decide)).2.2

theorem bubblesOf_length (m : String → ℚ) (st : Style) (msgs : List MsgIn) :
    (bubblesOf m st msgs).length = msgs.length := by
  simp [bubblesOf]

/-- C5: for a non-empty message list of length N the generator produces
exactly N frames, one per state 0..N-1 in increasing order with no
reordering; the empty list is rejected up front with an invalid-input error
(src/server.js line 298), never a partial result. -/
theorem generate_frames_complete (m : String → ℚ) (st : Style) (msgs : List MsgIn) :
    (msgs = [] → handleGenerate m st (some msgs) = Except.error "No messages provided") ∧
    (msgs ≠ [] →
      handleGenerate m st (some msgs) = Except.ok (generateConversationFrames m st msgs) ∧
      (generateConversationFrames m st msgs).length = msgs.length ∧
      (generateConversationFrames m st msgs).map Frame.state = List.range msgs.length) := by
  constructor
  · intro h; subst h; rfl
  · intro h
    have hlen0 : msgs.length ≠ 0 := by simpa using h
    refine ⟨?_, ?_, ?_⟩
    · simp [handleGenerate, hlen0]
    · simp [generateConversationFrames, bubblesOf_length]
    · simp only [generateConversationFrames, bubblesOf_length, List.map_map]
      rw [show (Frame.state ∘ fun state =>
            ({ state := state,
               yOffset := yOffsetOf (usedHeightUpTo m st msgs state) st.height,
               drawn := drawnAt m st msgs state } : Frame)) = id from rfl, List.map_id]

/-- Witness for the C5 theorem at concrete inputs (both branches). -/
theorem generate_frames_complete_witness :
    handleGenerate charWidth10 (defaultStyleA 1080 1920 48) (some [])
        = Except.error "No messages provided" ∧
    (generateConversationFrames charWidth10 (defaultStyleA 1080 1920 48)
        [⟨some "hi", none⟩]).map Frame.state = List.range 1 :=
  ⟨(generate_frames_complete charWidth10 (defaultStyleA 1080 1920 48) []).1 rfl,
   ((generate_frames_complete charWidth10 (defaultStyleA 1080 1920 48)
      [⟨some "hi", none⟩]).2 (by decide)).2.2⟩

/-- C6: the laid-out bubble's width never exceeds `maxBubbleWidth`; its
height is `ceil(lineCount * lineHeight + 2 * paddingY)` with
`lineHeight = max(fontSize * 1.12, fontSize + 6)`; and for a fixed
(non-negative) font size the height is monotonically non-decreasing in the
line count. -/
theorem mkBubble_bubbleH (m : String → ℚ) (st : Style) (idx : ℕ) (msg : MsgIn) :
    (mkBubble m st idx msg).bubbleH
      = ((⌈((mkBubble m st idx msg).lines.length : ℚ) * lineHeightOf st.fontSize
          + st.bubblePaddingY * 2⌉ : ℤ) : ℚ) := rfl

theorem bubble_size_invariant (m : String → ℚ) (st : Style) (idx : ℕ) (msg : MsgIn)
    (hf : 0 ≤ st.fontSize) :
    (mkBubble m st idx msg).bubbleW ≤ st.maxBubbleWidth ∧
    (mkBubble m st idx msg).bubbleH
      = ((⌈((mkBubble m st idx msg).lines.length : ℚ)
            * max (st.fontSize * (112 / 100)) (st.fontSize + 6)
            + 2 * st.bubblePaddingY⌉ : ℤ) : ℚ) ∧
    (∀ (idx2 : ℕ) (msg2 : MsgIn),
      (mkBubble m st idx msg).lines.length ≤ (mkBubble m st idx2 msg2).lines.length →
      (mkBubble m st idx msg).bubbleH ≤ (mkBubble m st idx2 msg2).bubbleH) := by
  have hlh : 0 ≤ lineHeightOf st.fontSize :=
    le_trans (by linarith) (le_max_right (st.fontSize * (112 / 100)) (st.fontSize + 6))
  refine ⟨?_, ?_, ?_⟩
  · simp only [mkBubble]
    exact min_le_left _ _
  · rw [mkBubble_bubbleH]
    simp only [lineHeightOf]
    rw [mul_comm st.bubblePaddingY 2]
  · intro idx2 msg2 hle
    rw [mkBubble_bubbleH, mkBubble_bubbleH]
    have hcast : (((mkBubble m st idx msg).lines.length : ℚ))
        ≤ ((mkBubble m st idx2 msg2).lines.length : ℚ) := Nat.cast_le.mpr hle
    have h1 := mul_le_mul_of_nonneg_right hcast hlh
    exact_mod_cast Int.ceil_mono (by linarith)

/-- Witness for the C6 theorem at a concrete input. -/
theorem bubble_size_invariant_witness :
    (mkBubble charWidth10 (defaultStyleA 1080 1920 48) 0 ⟨some "hi", none⟩).bubbleW
      ≤ (defaultStyleA 1080 1920 48).maxBubbleWidth ∧
    (mkBubble charWidth10 (defaultStyleA 1080 1920 48) 0 ⟨some "hi", none⟩).bubbleH
      ≤ (mkBubble charWidth10 (defaultStyleA 1080 1920 48) 0 ⟨some "hi", none⟩).bubbleH :=
  ⟨(bubble_size_invariant charWidth10 (defaultStyleA 1080 1920 48) 0 ⟨some "hi", none⟩
      (by norm_num [defaultStyleA])).1,
   (bubble_size_invariant charWidth10 (defaultStyleA 1080 1920 48) 0 ⟨some "hi", none⟩
      (by norm_num [defaultStyleA])).2.2 0 ⟨some "hi", none⟩ (le_refl _)⟩

/-- C10: a missing or falsy sender defaults to "Sender"; horizontal placement
compares the sender case-insensitively with "sender": a match is
right-aligned at `canvasWidth - marginSides - bubbleWidth`, anything else is
left-aligned at `marginSides`. -/
theorem sender_defaulting_alignment (msg : MsgIn) (st : Style) (bw : ℚ) :
    ((msg.sender = none ∨ msg.sender = some "") → senderOf msg = "Sender") ∧
    (∀ s, msg.sender = some s → s ≠ "" → senderOf msg = s) ∧
    (lowerStr (senderOf msg) = "sender" →
      bubbleXOf st (senderOf msg) bw = st.width - st.marginSides - bw) ∧
    (lowerStr (senderOf msg) ≠ "sender" →
      bubbleXOf st (senderOf msg) bw = st.marginSides) := by
  refine ⟨?_, ?_, ?_, ?_⟩
  · rintro (h | h) <;> simp [senderOf, h]
  · intro s hs hne; simp [senderOf, hs, hne]
  · intro h; simp [bubbleXOf, h]
  · intro h; simp [bubbleXOf, h]

/-- Witness for the C10 theorem at a concrete input. -/
theorem sender_defaulting_alignment_witness :
    senderOf ⟨some "hi", none⟩ = "Sender" ∧
    bubbleXOf (defaultStyleA 1080 1920 48) (senderOf ⟨some "hi", none⟩) 50
      = (defaultStyleA 1080 1920 48).width
        - (defaultStyleA 1080 1920 48).marginSides - 50 :=
  ⟨(sender_defaulting_alignment ⟨some "hi", none⟩ (defaultStyleA 1080 1920 48) 50).1
      (Or.inl rfl),
   (sender_defaulting_alignment ⟨some "hi", none⟩ (defaultStyleA 1080 1920 48) 50).2.2.1
      (by decide)⟩

theorem ceil_q_eq (x : ℚ) (z : ℤ) (h1 : (z : ℚ) - 1 < x) (h2 : x ≤ (z : ℚ)) :
    (⌈x⌉ : ℤ) = z :=
  Int.ceil_eq_iff.mpr ⟨h1, h2⟩

/-- C1 fails on the cropping variant (src/unnamed/part_000): the per-frame
canvas height is `min(positions[s] + bubbleH[s] + 20, height)` and bubbles
are drawn at their absolute positions with no scroll offset, so as soon as
the content exceeds `height` the most recent bubble's bottom edge lies below
the canvas. Concretely, for one message "hi" with the variant's defaults and
canvas height 100 (any ten-units-per-character measurer), the bubble spans
vertically up to 249 while the frame canvas is only 100 tall. -/
theorem cropping_variant_hides_last_bubble :
    VariantB.frameCanvasHeight charWidth10 (defaultStyleB 1080 100 54)
        [⟨some "hi", none⟩] 0 = 100 ∧
    VariantB.lastBubbleBottom charWidth10 (defaultStyleB 1080 100 54)
        [⟨some "hi", none⟩] 0 = 249 ∧
    ¬ (VariantB.lastBubbleBottom charWidth10 (defaultStyleB 1080 100 54)
          [⟨some "hi", none⟩] 0
        ≤ VariantB.frameCanvasHeight charWidth10 (defaultStyleB 1080 100 54)
          [⟨some "hi", none⟩] 0) := by
  have hm : charWidth10 "hi" = 20 := by
    have hlen : ("hi" : String).length = 2 := rfl
    simp only [charWidth10, hlen]
    norm_num
  have hfl : (⌊(1080 : ℚ) * (75 / 100)⌋ : ℤ) = 810 := by
    rw [Int.floor_eq_iff]
    norm_num
  have hmaxbw : (defaultStyleB 1080 100 54).maxBubbleWidth = 810 := by
    show ((⌊(1080 : ℚ) * (75 / 100)⌋ : ℤ) : ℚ) = 810
    rw [hfl]
    norm_num
  have hfit : ¬ ((810 : ℚ) - 32 * 2 < charWidth10 "hi") := by
    rw [hm]
    norm_num
  have hlines : (mkBubble charWidth10 (defaultStyleB 1080 100 54) 0
      ⟨some "hi", none⟩).lines = ["hi"] := by
    show wrapText charWidth10
      ((defaultStyleB 1080 100 54).maxBubbleWidth
        - (defaultStyleB 1080 100 54).bubblePaddingX * 2) "hi" = ["hi"]
    rw [wrapText, show splitSp "hi" = ["hi"] from by decide,
      show (defaultStyleB 1080 100 54).bubblePaddingX = (32 : ℚ) from rfl, hmaxbw]
    simp [wrapWords, hfit]
  have hceil : (⌈((["hi"].length : ℕ) : ℚ)
      * lineHeightOf (defaultStyleB 1080 100 54).fontSize
      + (defaultStyleB 1080 100 54).bubblePaddingY * 2⌉ : ℤ) = 109 := by
    refine ceil_q_eq _ 109 ?_ ?_ <;>
      norm_num [lineHeightOf, defaultStyleB, max_def]
  have hbubH : (mkBubble charWidth10 (defaultStyleB 1080 100 54) 0
      ⟨some "hi", none⟩).bubbleH = 109 := by
    rw [mkBubble_bubbleH, hlines, hceil]
    norm_num
  have hbubs : bubblesOf charWidth10 (defaultStyleB 1080 100 54) [⟨some "hi", none⟩]
      = [mkBubble charWidth10 (defaultStyleB 1080 100 54) 0 ⟨some "hi", none⟩] := rfl
  have hpos : positionsOf charWidth10 (defaultStyleB 1080 100 54) [⟨some "hi", none⟩]
      = [140] := by
    rw [positionsOf, hbubs]
    simp only [stackPositions]
    rfl
  have hlast : VariantB.lastBubbleBottom charWidth10 (defaultStyleB 1080 100 54)
      [⟨some "hi", none⟩] 0 = 249 := by
    rw [VariantB.lastBubbleBottom, hpos, hbubs]
    simp only [List.map_cons, List.map_nil, List.getD, hbubH]
    norm_num
  have hcanvas : VariantB.frameCanvasHeight charWidth10 (defaultStyleB 1080 100 54)
      [⟨some "hi", none⟩] 0 = 100 := by
    rw [VariantB.frameCanvasHeight, hlast,
      show (defaultStyleB 1080 100 54).height = (100 : ℚ) from rfl,
      min_eq_right (by norm_num)]
  refine ⟨hcanvas, hlast, ?_⟩
  rw [hcanvas, hlast]
  norm_num

theorem TypingModel.findNextRealAux_none (sdr : String) :
    ∀ (l : List TypingModel.TMsg) (k : ℕ),
      (∀ x ∈ l, ¬(x.typing = false ∧ x.sender = sdr)) →
      TypingModel.findNextRealAux sdr l k = none
  | [], _, _ => rfl
  | x :: rest, k, h => by
    rw [TypingModel.findNextRealAux, if_neg (h x (List.mem_cons_self _ _))]
    exact TypingModel.findNextRealAux_none sdr rest (k + 1)
      (fun y hy => h y (List.mem_cons_of_mem _ hy))

/-- C7 (modelled from the spec, no typing logic exists under src/): a typing
bubble at index `j ≤ s` is visible in the frame for state `s` iff the
nearest following real message of the same sender does not exist or has not
yet arrived (index `> s`); once suppressed it stays suppressed in every
later frame; and real messages from the other sender never suppress it. -/
theorem typing_visibility (msgs : List TypingModel.TMsg) (s j : ℕ)
    (msg : TypingModel.TMsg) (hj : j ≤ s) (hget : msgs[j]? = some msg) :
    (TypingModel.typingVisibleAt msgs s j = true ↔
      (msg.typing = true →
        ∀ k, TypingModel.findNextReal msgs msg.sender (j + 1) = some k → s < k)) ∧
    (TypingModel.typingVisibleAt msgs s j = false →
      ∀ u, s ≤ u → TypingModel.typingVisibleAt msgs u j = false) ∧
    (msg.typing = true →
      (∀ x ∈ msgs.drop (j + 1), x.typing = false → x.sender ≠ msg.sender) →
      TypingModel.typingVisibleAt msgs s j = true) := by
  by_cases hty : msg.typing = false
  · refine ⟨?_, ?_, ?_⟩
    · simp [TypingModel.typingVisibleAt, hget, hty]
    · intro hfalse
      simp [TypingModel.typingVisibleAt, hget, hty] at hfalse
    · intro _ _
      simp [TypingModel.typingVisibleAt, hget, hty]
  · have hty' : msg.typing = true := by
      cases htyp : msg.typing
      · exact absurd htyp hty
      · rfl
    cases hfind : TypingModel.findNextReal msgs msg.sender (j + 1) with
    | none =>
      refine ⟨?_, ?_, ?_⟩
      · simp [TypingModel.typingVisibleAt, hget, hty', hfind]
      · intro hfalse
        simp [TypingModel.typingVisibleAt, hget, hty', hfind] at hfalse
      · intro _ _
        simp [TypingModel.typingVisibleAt, hget, hty', hfind]
    | some k =>
      refine ⟨?_, ?_, ?_⟩
      · simp [TypingModel.typingVisibleAt, hget, hty', hfind]
      · intro hfalse u hsu
        simp [TypingModel.typingVisibleAt, hget, hty', hfind,
          decide_eq_false_iff_not] at hfalse ⊢
        omega
      · intro _ hall
        have hnone : TypingModel.findNextReal msgs msg.sender (j + 1) = none := by
          rw [TypingModel.findNextReal]
          refine TypingModel.findNextRealAux_none msg.sender _ _ ?_
          intro x hx hcon
          exact hall x hx hcon.1 hcon.2
        rw [hnone] at hfind
        exact Option.noConfusion hfind

/-- Witness for the C7 theorem on the spec's own example
`[typing(A), typing(A), text(A), text(B)]`: suppression at state 2 persists
at state 3 by the monotonicity part of the theorem. -/
theorem typing_visibility_witness :
    TypingModel.typingVisibleAt
      [⟨"A", true⟩, ⟨"A", true⟩, ⟨"A", false⟩, ⟨"B", false⟩] 3 0 = false :=
  (typing_visibility [⟨"A", true⟩, ⟨"A", true⟩, ⟨"A", false⟩, ⟨"B", false⟩] 2 0
      ⟨"A", true⟩ (by decide) (by decide)).2.1 (by decide) 3 (by decide)

/-- C8 (modelled from the spec, no status logic exists under src/): status
resolution follows the stated precedence — a recognized explicit
status/state/tick string (case-insensitive, "read" normalized to "seen")
wins over the boolean flags (`seen` then `delivered`), which win over
timestamp presence (`read_at` then `delivered_at`); an unresolved
sender-side message is rendered with Delivered ticks, and a receiver-side
message never shows ticks. -/
theorem status_resolution (msg : StatusModel.SMsg) :
    (∀ s st, (msg.status <|> msg.state <|> msg.tick) = some s →
      StatusModel.parseStatus s = some st → StatusModel.resolve msg = some st) ∧
    (∀ s, StatusModel.parseStatus s = some StatusModel.Status.seen ↔
      (lowerStr s = "seen" ∨ lowerStr s = "read")) ∧
    ((msg.status <|> msg.state <|> msg.tick).bind StatusModel.parseStatus = none →
      msg.seen = some true → StatusModel.resolve msg = some StatusModel.Status.seen) ∧
    ((msg.status <|> msg.state <|> msg.tick).bind StatusModel.parseStatus = none →
      msg.seen ≠ some true → msg.delivered = some true →
      StatusModel.resolve msg = some StatusModel.Status.delivered) ∧
    ((msg.status <|> msg.state <|> msg.tick).bind StatusModel.parseStatus = none →
      msg.seen ≠ some true → msg.delivered ≠ some true → msg.read_at.isSome = true →
      StatusModel.resolve msg = some StatusModel.Status.seen) ∧
    ((msg.status <|> msg.state <|> msg.tick).bind StatusModel.parseStatus = none →
      msg.seen ≠ some true → msg.delivered ≠ some true → msg.read_at.isSome ≠ true →
      msg.delivered_at.isSome = true →
      StatusModel.resolve msg = some StatusModel.Status.delivered) ∧
    (msg.isSender = true → StatusModel.resolve msg = none →
      StatusModel.displayedTicks msg = some StatusModel.Status.delivered) ∧
    (msg.isSender = false → StatusModel.displayedTicks msg = none) := by
  refine ⟨?_, ?_, ?_, ?_, ?_, ?_, ?_, ?_⟩
  · intro s st h1 h2
    simp [StatusModel.resolve, h1, h2]
  · intro s
    simp only [StatusModel.parseStatus]
    split_ifs with h1 h2 h3
    · simp [h1]
    · simp [h1]
    · simp [h1]
    · simp [h1]
  · intro hb hseen
    simp [StatusModel.resolve, hb, hseen]
  · intro hb hseen hdel
    simp [StatusModel.resolve, hb, hseen, hdel]
  · intro hb hseen hdel hread
    simp [StatusModel.resolve, hb, hseen, hdel, hread]
  · intro hb hseen hdel hread hdela
    simp [StatusModel.resolve, hb, hseen, hdel, hread, hdela]
  · intro hsend hres
    simp [StatusModel.displayedTicks, hsend, hres]
  · intro hsend
    simp [StatusModel.displayedTicks, hsend]

/-- Witness for the C8 theorem at the spec's example inputs. -/
theorem status_resolution_witness :
    StatusModel.resolve ⟨some "Read", none, none, none, none, none, none, true⟩
        = some StatusModel.Status.seen ∧
    StatusModel.resolve ⟨none, none, none, none, none, none, some "2024-01-01", true⟩
        = some StatusModel.Status.delivered ∧
    StatusModel.displayedTicks ⟨none, none, none, none, none, none, none, true⟩
        = some StatusModel.Status.delivered ∧
    StatusModel.displayedTicks ⟨some "Read", none, none, none, none, none, none, false⟩
        = none :=
  ⟨(status_resolution ⟨some "Read", none, none, none, none, none, none, true⟩).1
      "Read" StatusModel.Status.seen rfl (by decide),
   (status_resolution ⟨none, none, none, none, none, none, some "2024-01-01", true⟩
      ).2.2.2.2.2.1 (by decide) (by decide) (by decide) (by decide) (by decide),
   (status_resolution ⟨none, none, none, none, none, none, none, true⟩
      ).2.2.2.2.2.2.1 rfl (by decide),
   (status_resolution ⟨some "Read", none, none, none, none, none, none, false⟩
      ).2.2.2.2.2.2.2 rfl⟩

end ChatVideo
